import Mathlib

/-!
# Verification of the facememory browser client

Shallow embedding of the emotion-detection client
(`src/EmotionDetector/static/js/camera.js` and `text-chat.js`).

Conventions of the embedding:

* JavaScript numbers are modelled by `JSNum`: an exact rational together
  with the IEEE special values `+Infinity`, `-Infinity` and `NaN`
  (rational arithmetic idealises the double rounding; all zero-tests,
  clamps and special-value propagation in the modelled code depend only
  on exact zero-ness/sign of integer-derived data, which doubles decide
  the same way).  `Math.sqrt` is irrational on rationals, so the
  radicand of `spectralSpread` is kept in the feature record
  (`spectralSpreadSqRaw`) and the square root is applied by a separate
  real-valued function `spectralSpreadRaw` / `spectralSpreadField`.
* A `Uint8Array` frequency snapshot is a `List ℕ` of byte magnitudes.
* `Array#slice(a, b)` is `(l.drop a).take (b - a)`, `Math.floor (n * f)`
  for the band fractions is exact natural division.
* JS object key iteration (`Object.entries`) for the emotion-count map
  is modelled in insertion order, i.e. order of first occurrence in the
  history; this is the ECMAScript order for the non-numeric emotion
  label strings the program uses.
-/

/-- A JavaScript number: finite (exact rational), `+Infinity`,
`-Infinity`, or `NaN`. -/
inductive JSNum where
  | fin : ℚ → JSNum
  | inf : JSNum
  | neginf : JSNum
  | nan : JSNum
deriving DecidableEq

namespace JSNum

/-- IEEE addition on `JSNum` (no signed zero: ℚ has a single 0). -/
def jsAdd : JSNum → JSNum → JSNum
  | nan, _ => nan
  | _, nan => nan
  | inf, neginf => nan
  | neginf, inf => nan
  | inf, _ => inf
  | _, inf => inf
  | neginf, _ => neginf
  | _, neginf => neginf
  | fin a, fin b => fin (a + b)

/-- IEEE multiplication on `JSNum`. -/
def jsMul : JSNum → JSNum → JSNum
  | nan, _ => nan
  | _, nan => nan
  | fin a, fin b => fin (a * b)
  | inf, inf => inf
  | inf, neginf => neginf
  | neginf, inf => neginf
  | neginf, neginf => inf
  | inf, fin b => if 0 < b then inf else if b < 0 then neginf else nan
  | fin a, inf => if 0 < a then inf else if a < 0 then neginf else nan
  | neginf, fin b => if 0 < b then neginf else if b < 0 then inf else nan
  | fin a, neginf => if 0 < a then neginf else if a < 0 then inf else nan

/-- IEEE division of two finite values (the denominator zero is the
positive zero: ℚ has no `-0`). -/
def jsDivQ (a b : ℚ) : JSNum :=
  if b ≠ 0 then fin (a / b)
  else if 0 < a then inf
  else if a < 0 then neginf
  else nan

/-- IEEE division on `JSNum`. -/
def jsDivN : JSNum → JSNum → JSNum
  | nan, _ => nan
  | _, nan => nan
  | inf, inf => nan
  | inf, neginf => nan
  | neginf, inf => nan
  | neginf, neginf => nan
  | fin _, inf => fin 0
  | fin _, neginf => fin 0
  | inf, fin b => if b < 0 then neginf else inf
  | neginf, fin b => if b < 0 then inf else neginf
  | fin a, fin b => jsDivQ a b

/-- `Math.max(0, x)` (NaN propagates). -/
def jsMax0 : JSNum → JSNum
  | nan => nan
  | inf => inf
  | neginf => fin 0
  | fin a => fin (max 0 a)

/-- `Math.min(1, x)` (NaN propagates). -/
def jsMin1 : JSNum → JSNum
  | nan => nan
  | inf => fin 1
  | neginf => neginf
  | fin a => fin (min 1 a)

/-- `Math.min(1, Math.max(0, x))` — the clamp applied to the five
normalized fields of the returned feature object. -/
def clampN (x : JSNum) : JSNum := jsMin1 (jsMax0 x)

/-- The value is a finite number in the closed interval `[0,1]`. -/
def inUnit : JSNum → Bool
  | fin q => decide ((0 : ℚ) ≤ q ∧ q ≤ 1)
  | _ => false

end JSNum

open JSNum

/-- `arr.reduce((sum, val) => sum + (val * w), 0)` — weighted sum of a
band slice. -/
def sumWeighted (w : ℚ) (l : List ℕ) : ℚ :=
  l.foldl (fun s (v : ℕ) => s + (v : ℚ) * w) 0

/-- `frequencyData.reduce((sum, val) => sum + val, 0)` and the
`totalWeight` accumulator of the spectral-centroid loop. -/
def totalWeight (l : List ℕ) : ℚ :=
  l.foldl (fun s (v : ℕ) => s + (v : ℚ)) 0

/-- The `spectralCentroid` accumulator `Σ i * frequencyData[i]`. -/
def weightedIndexSum (l : List ℕ) : ℚ :=
  l.enum.foldl (fun s (p : ℕ × ℕ) => s + (p.1 : ℚ) * (p.2 : ℚ)) 0

/-- `spectralCentroid = totalWeight > 0 ? sc / totalWeight / bufferLength : 0`
(the only explicitly zero-guarded ratio in `calculateAudioFeatures`). -/
def spectralCentroidVal (l : List ℕ) : ℚ :=
  if 0 < totalWeight l then weightedIndexSum l / totalWeight l / (l.length : ℚ)
  else 0

/-- The radicand numerator
`frequencyData.reduce((sum, val, i) => sum + diff*diff*val, 0)` with
`diff = i / bufferLength - spectralCentroid`. -/
def spreadSum (l : List ℕ) : ℚ :=
  l.enum.foldl
    (fun s (p : ℕ × ℕ) =>
      s + ((p.1 : ℚ) / (l.length : ℚ) - spectralCentroidVal l)
        * ((p.1 : ℚ) / (l.length : ℚ) - spectralCentroidVal l) * (p.2 : ℚ)) 0

/-- One weighted band energy:
`frequencyData.slice(a, b).reduce((sum, val) => sum + val*w, 0) / ((b - a) * 255)`. -/
def bandEnergy (l : List ℕ) (w : ℚ) (a b : ℕ) : JSNum :=
  jsDivQ (sumWeighted w ((l.drop a).take (b - a))) (((b - a : ℕ) : ℚ) * 255)

/-- `bassEnergy`: weight 1.2, bins `[0, floor(0.1 n))`. -/
def bassEnergy (l : List ℕ) : JSNum :=
  bandEnergy l (6/5) 0 (l.length / 10)

/-- `lowMidEnergy`: weight 1.5, bins `[floor(0.1 n), floor(0.3 n))`. -/
def lowMidEnergy (l : List ℕ) : JSNum :=
  bandEnergy l (3/2) (l.length / 10) (3 * l.length / 10)

/-- `midEnergy`: weight 2.0, bins `[floor(0.3 n), floor(0.6 n))`. -/
def midEnergy (l : List ℕ) : JSNum :=
  bandEnergy l 2 (3 * l.length / 10) (6 * l.length / 10)

/-- `presenceEnergy`: weight 1.8, bins `[floor(0.6 n), floor(0.8 n))`. -/
def presenceEnergy (l : List ℕ) : JSNum :=
  bandEnergy l (9/5) (6 * l.length / 10) (8 * l.length / 10)

/-- `brillianceEnergy`: weight 1.3, bins `[floor(0.8 n), n)`. -/
def brillianceEnergy (l : List ℕ) : JSNum :=
  bandEnergy l (13/10) (8 * l.length / 10) l.length

/-- `pitch = (presenceEnergy * 1.5 + brillianceEnergy) / (bassEnergy + lowMidEnergy)`
before clamping; note the source has NO zero-guard here. -/
def pitchRaw (l : List ℕ) : JSNum :=
  jsDivN (jsAdd (jsMul (presenceEnergy l) (fin (3/2))) (brillianceEnergy l))
    (jsAdd (bassEnergy l) (lowMidEnergy l))

/-- `volume = (midEnergy * 2 + presenceEnergy * 1.5 + bassEnergy) / 3`
before clamping. -/
def volumeRaw (l : List ℕ) : JSNum :=
  jsDivN
    (jsAdd (jsAdd (jsMul (midEnergy l) (fin 2)) (jsMul (presenceEnergy l) (fin (3/2))))
      (bassEnergy l))
    (fin 3)

/-- `speechRate = (presenceEnergy + midEnergy) / (bassEnergy + lowMidEnergy)`
before clamping; no zero-guard in the source. -/
def speechRateRaw (l : List ℕ) : JSNum :=
  jsDivN (jsAdd (presenceEnergy l) (midEnergy l))
    (jsAdd (bassEnergy l) (lowMidEnergy l))

/-- The record returned by `calculateAudioFeatures`.  The raw radicand
of `spectralSpread` (`Σ diff²·val / totalWeight`, before `Math.sqrt`) is
stored as `spectralSpreadSqRaw`; the real-valued square root is applied
by `spectralSpreadRaw` / `spectralSpreadField` below. -/
structure AudioFeatures where
  pitch : JSNum
  volume : JSNum
  speechRate : JSNum
  spectralCentroid : JSNum
  spectralSpreadSqRaw : JSNum
  bassEnergy : JSNum
  lowMidEnergy : JSNum
  midEnergy : JSNum
  presenceEnergy : JSNum
  brillianceEnergy : JSNum
  totalEnergy : JSNum
deriving DecidableEq

/-- `calculateAudioFeatures` (text-chat.js lines 757–826): the five
normalized fields are clamped with `Math.min(1, Math.max(0, ·))`; the
raw band energies and `totalEnergy` are returned unclamped. -/
def calculateAudioFeatures (frequencyData : List ℕ) : AudioFeatures :=
  { pitch := clampN (pitchRaw frequencyData)
    volume := clampN (volumeRaw frequencyData)
    speechRate := clampN (speechRateRaw frequencyData)
    spectralCentroid := clampN (fin (spectralCentroidVal frequencyData))
    spectralSpreadSqRaw := jsDivQ (spreadSum frequencyData) (totalWeight frequencyData)
    bassEnergy := bassEnergy frequencyData
    lowMidEnergy := lowMidEnergy frequencyData
    midEnergy := midEnergy frequencyData
    presenceEnergy := presenceEnergy frequencyData
    brillianceEnergy := brillianceEnergy frequencyData
    totalEnergy := jsDivQ (totalWeight frequencyData) ((frequencyData.length : ℚ) * 255) }

/-- A JavaScript number with a real payload, for the results of
`Math.sqrt`. -/
inductive JSNumR where
  | fin : ℝ → JSNumR
  | inf : JSNumR
  | neginf : JSNumR
  | nan : JSNumR

namespace JSNumR

/-- `Math.sqrt` applied to a (rational-payload) JS number. -/
noncomputable def jsSqrtR : JSNum → JSNumR
  | JSNum.nan => nan
  | JSNum.inf => inf
  | JSNum.neginf => nan
  | JSNum.fin q => if q < 0 then nan else fin (Real.sqrt q)

/-- `Math.min(1, Math.max(0, x))` on real-payload JS numbers. -/
noncomputable def clampR : JSNumR → JSNumR
  | nan => nan
  | inf => fin 1
  | neginf => fin 0
  | fin r => fin (min 1 (max 0 r))

/-- The value is a finite real in `[0,1]`. -/
def inUnitR : JSNumR → Prop
  | fin r => 0 ≤ r ∧ r ≤ 1
  | _ => False

/-- The value compares `≥ 0` the way JS would decide it
(`NaN ≥ 0` and `-Infinity ≥ 0` are false). -/
def nonnegR : JSNumR → Prop
  | fin r => 0 ≤ r
  | inf => True
  | _ => False

end JSNumR

/-- The local `spectralSpread` of the source
(`Math.sqrt(Σ diff²·val / totalWeight)`), before clamping — this is the
value also used by the `consistency` field. -/
noncomputable def spectralSpreadRaw (a : AudioFeatures) : JSNumR :=
  JSNumR.jsSqrtR a.spectralSpreadSqRaw

/-- The `spectralSpread` field of the returned object:
`Math.min(1, Math.max(0, spectralSpread))`. -/
noncomputable def spectralSpreadField (a : AudioFeatures) : JSNumR :=
  JSNumR.clampR (spectralSpreadRaw a)

/-! ## Emotion stability filter and face-pipeline state (camera.js) -/

/-- The key list of the `counts` object built by
`emotionHistory.forEach(...)`: keys in insertion order, i.e. order of
first occurrence in the history. -/
def keysOf (history : List String) : List String :=
  history.foldl (fun ks e => if e ∈ ks then ks else ks ++ [e]) []

/-- The emotion-count map of `getStableEmotion` as `Object.entries`
iterates it: keys in insertion order, each paired with its occurrence
count. -/
def countsEntries (history : List String) : List (String × ℕ) :=
  (keysOf history).map (fun e => (e, history.count e))

/-- The `for (const [emotion, count] of Object.entries(counts))` loop:
strict `count > maxCount` update, accumulator starting at
`(newEmotion, 0)`. -/
def pickStable : (String × ℕ) → List (String × ℕ) → (String × ℕ)
  | acc, [] => acc
  | acc, p :: ps => pickStable (if acc.2 < p.2 then p else acc) ps

/-- `getStableEmotion(newEmotion)` (camera.js lines 512–537): push the
new label, evict the oldest if the history exceeds 5, then return the
most frequent label (ties to the first key reaching the running max in
`Object.entries` order).  Returns the updated history together with the
stable label; the source mutates the global `emotionHistory` instead. -/
def getStableEmotion (history : List String) (newEmotion : String) :
    List String × String :=
  let pushed := history ++ [newEmotion]
  let kept := if 5 < pushed.length then pushed.tail else pushed
  (kept, (pickStable (newEmotion, 0) (countsEntries kept)).1)

/-- Feed a label sequence through `getStableEmotion` from a given
history, collecting every returned stable label. -/
def observeAll (init : List String) (labels : List String) :
    List String × List String :=
  labels.foldl
    (fun acc lab =>
      let r := getStableEmotion acc.1 lab
      (r.1, acc.2 ++ [r.2]))
    (init, [])

/-- The spec's tie-break rule, stated from its words for the refinement
check: the winner is the first label, scanning the current history left
to right, whose running occurrence count reaches the overall maximum
count first. -/
def specScanWinner (history : List String) : Option String :=
  let m := ((keysOf history).map (fun e => history.count e)).foldl max 0
  (List.range history.length).findSome?
    (fun i => (history.take (i + 1)).getLast?.bind
      (fun e => if (history.take (i + 1)).count e = m then some e else none))

/-- The code's tie-break rule, stated denotationally: the first key in
first-occurrence order whose count equals the maximum count. -/
def firstKeyWithMaxCount (history : List String) (dflt : String) : String :=
  ((keysOf history).find?
    (fun e => history.count e =
      ((keysOf history).map (fun e => history.count e)).foldl max 0)).getD dflt

/-- The face-pipeline client state touched by the start/stop handlers
and `detectFaces` (camera.js lines 504–509, 540–720, 842–902).  DOM and
canvas effects are outside the model; `streamActive` stands for holding
the capture resource (`stream` non-null with live tracks). -/
structure CameraState where
  isStreaming : Bool
  streamActive : Bool
  emotionHistory : List String
  currentEmotion : String
  noFaceDetectionCount : ℕ
deriving DecidableEq

/-- What one `detectFaces` body run observed after the external face
recognizer returned: no face at all, or a most-prominent face (with or
without an `expressions` record) carrying the mapped emotion and its
confidence. -/
inductive TickResult where
  | noFace : TickResult
  | face : Bool → String → ℚ → TickResult

/-- One `detectFaces` body run past the streaming/interval gates
(camera.js lines 631–713), restricted to the modelled state: a
detection zeroes `noFaceDetectionCount` and, when expressions exist and
confidence exceeds 0.2, runs the stability filter and adopts the stable
label when it changed; a miss increments the counter and, strictly
beyond 5 consecutive misses, resets the label to "No face detected" and
clears the history.  The `saveEmotion` call it makes is modelled
separately by `saveEmotion` below. -/
def detectBody (s : CameraState) : TickResult → CameraState
  | TickResult.face hasExpr emo conf =>
    let s0 := { s with noFaceDetectionCount := 0 }
    if hasExpr ∧ 1/5 < conf then
      let r := getStableEmotion s0.emotionHistory emo
      if r.2 ≠ s0.currentEmotion then
        { s0 with emotionHistory := r.1, currentEmotion := r.2 }
      else
        { s0 with emotionHistory := r.1 }
    else s0
  | TickResult.noFace =>
    let c := s.noFaceDetectionCount + 1
    if 5 < c ∧ s.currentEmotion ≠ "No face detected" then
      { s with
          noFaceDetectionCount := c
          currentEmotion := "No face detected"
          emotionHistory := [] }
    else
      { s with noFaceDetectionCount := c }

/-- A `detectFaces` invocation: the body runs only while `isStreaming`
(camera.js line 541). -/
def detectFacesStep (s : CameraState) (r : TickResult) : CameraState :=
  if s.isStreaming then detectBody s r else s

/-- `k` consecutive gated no-detection ticks. -/
def noFaceTicks : ℕ → CameraState → CameraState
  | 0, s => s
  | k + 1, s => noFaceTicks k (detectFacesStep s TickResult.noFace)

/-- The `stopButton` click handler (camera.js lines 842–902) on the
modelled state: when streaming, it stops and releases the media stream
and clears `isStreaming`; it does not touch `emotionHistory`,
`currentEmotion` or `noFaceDetectionCount` (the rest of the handler is
DOM/UI work). -/
def stopClick (s : CameraState) : CameraState :=
  if s.isStreaming then { s with streamActive := false, isStreaming := false }
  else s

/-- State of the `saveEmotion` rate limiter: the module-level
`lastEmotionSaveTime` (initially 0). -/
structure SaveState where
  lastEmotionSaveTime : ℤ
deriving DecidableEq

/-- `emotionSaveInterval = 2000` (camera.js line 133). -/
def emotionSaveInterval : ℤ := 2000

/-- `saveEmotion(emotion, confidence)` (camera.js lines 136–166) at
wall-clock time `now`: posts to `/api/emotions` (returned Boolean) only
when the label is not "No face detected" and strictly more than
`emotionSaveInterval` ms passed since the last post, updating
`lastEmotionSaveTime` when it posts.  `confidence` is carried but never
examined by the guard. -/
def saveEmotion (s : SaveState) (emotion : String) (_confidence : ℚ)
    (now : ℤ) : SaveState × Bool :=
  if emotion ≠ "No face detected" ∧ emotionSaveInterval < now - s.lastEmotionSaveTime then
    ({ lastEmotionSaveTime := now }, true)
  else
    (s, false)

/-- Run `saveEmotion` over a sequence of `(emotion, confidence, now)`
call events, returning the timestamps at which a POST was issued, in
order. -/
def saveTrace (s : SaveState) : List (String × ℚ × ℤ) → List ℤ
  | [] => []
  | (e, c, t) :: rest =>
    let r := saveEmotion s e c t
    if r.2 then t :: saveTrace r.1 rest else saveTrace r.1 rest

/-! ## Helper lemmas -/

/-- A JS value that is finite zero or NaN (what every subterm of
`pitch`/`speechRate` evaluates to on an all-zero snapshot). -/
def ZeroOrNaN (x : JSNum) : Prop := x = JSNum.fin 0 ∨ x = JSNum.nan

/-- A JS value that is a finite nonnegative number. -/
def FinNN (x : JSNum) : Prop := ∃ q : ℚ, 0 ≤ q ∧ x = JSNum.fin q

theorem foldl_add_eq_init {α : Type} (t : α → ℚ) :
    ∀ (l : List α) (c : ℚ), (∀ a ∈ l, t a = 0) → l.foldl (fun s a => s + t a) c = c
  | [], _, _ => rfl
  | a :: l, c, h => by
    have ha : t a = 0 := h a (List.mem_cons_self a l)
    have hl : ∀ x ∈ l, t x = 0 := fun x hx => h x (List.mem_cons_of_mem a hx)
    simp only [List.foldl_cons, ha, add_zero]
    exact foldl_add_eq_init t l c hl

theorem le_foldl_add {α : Type} (t : α → ℚ) (ht : ∀ a, 0 ≤ t a) :
    ∀ (l : List α) (c : ℚ), c ≤ l.foldl (fun s a => s + t a) c
  | [], c => le_refl c
  | a :: l, c => by
    simp only [List.foldl_cons]
    exact le_trans (le_add_of_nonneg_right (ht a)) (le_foldl_add t ht l (c + t a))

theorem sumWeighted_eq_zero {l : List ℕ} (h : ∀ x ∈ l, x = 0) (w : ℚ) :
    sumWeighted w l = 0 := by
  unfold sumWeighted
  exact foldl_add_eq_init (fun a : ℕ => (a : ℚ) * w) l 0
    (fun a ha => by rw [h a ha]; simp)

theorem sumWeighted_nonneg {w : ℚ} (hw : 0 ≤ w) (l : List ℕ) :
    0 ≤ sumWeighted w l := by
  unfold sumWeighted
  exact le_foldl_add (fun a : ℕ => (a : ℚ) * w)
    (fun a => mul_nonneg (Nat.cast_nonneg a) hw) l 0

theorem foldl_add_cast :
    ∀ (l : List ℕ) (c : ℚ), l.foldl (fun s (v : ℕ) => s + (v : ℚ)) c = c + (l.sum : ℚ)
  | [], c => by simp
  | a :: l, c => by
    rw [List.foldl_cons, foldl_add_cast l, List.sum_cons]
    push_cast
    ring

theorem totalWeight_eq_sum (l : List ℕ) : totalWeight l = (l.sum : ℚ) := by
  unfold totalWeight
  rw [foldl_add_cast l 0, zero_add]

theorem totalWeight_of_allzero {l : List ℕ} (h : ∀ x ∈ l, x = 0) :
    totalWeight l = 0 := by
  rw [totalWeight_eq_sum, List.sum_eq_zero h]; rfl

theorem spreadSum_nonneg (l : List ℕ) : 0 ≤ spreadSum l := by
  unfold spreadSum
  exact le_foldl_add
    (fun p : ℕ × ℕ =>
      ((p.1 : ℚ) / (l.length : ℚ) - spectralCentroidVal l)
        * ((p.1 : ℚ) / (l.length : ℚ) - spectralCentroidVal l) * (p.2 : ℚ))
    (fun p => mul_nonneg (mul_self_nonneg _) (Nat.cast_nonneg p.2)) l.enum 0

theorem spreadSum_of_allzero {l : List ℕ} (h : ∀ x ∈ l, x = 0) :
    spreadSum l = 0 := by
  unfold spreadSum
  refine foldl_add_eq_init
    (fun p : ℕ × ℕ =>
      ((p.1 : ℚ) / (l.length : ℚ) - spectralCentroidVal l)
        * ((p.1 : ℚ) / (l.length : ℚ) - spectralCentroidVal l) * (p.2 : ℚ))
    l.enum 0 (fun p hp => ?_)
  have hsnd : p.2 ∈ l := by
    rw [← List.enum_map_snd l]
    exact List.mem_map_of_mem Prod.snd hp
  simp only [h p.2 hsnd]
  simp

theorem mem_of_mem_slice {l : List ℕ} {a b x : ℕ}
    (hx : x ∈ (l.drop a).take (b - a)) : x ∈ l :=
  List.mem_of_mem_drop (List.mem_of_mem_take hx)

theorem jsDivQ_zero_num {b : ℚ} :
    jsDivQ 0 b = (if b = 0 then JSNum.nan else JSNum.fin 0) := by
  by_cases hb : b = 0 <;> simp [jsDivQ, hb]

theorem bandEnergy_of_allzero {l : List ℕ} (h : ∀ x ∈ l, x = 0) (w : ℚ)
    (a b : ℕ) : ZeroOrNaN (bandEnergy l w a b) := by
  unfold bandEnergy
  rw [sumWeighted_eq_zero (fun x hx => h x (mem_of_mem_slice hx)) w,
    jsDivQ_zero_num]
  by_cases hb : (((b - a : ℕ) : ℚ)) * 255 = 0
  · right; simp [hb]
  · left; simp [hb]

theorem ZeroOrNaN.jsMulFin {x : JSNum} (hx : ZeroOrNaN x) (c : ℚ) :
    ZeroOrNaN (jsMul x (JSNum.fin c)) := by
  rcases hx with hx | hx <;> subst hx
  · left; simp [jsMul]
  · right; rfl

theorem ZeroOrNaN.jsAdd {x y : JSNum} (hx : ZeroOrNaN x) (hy : ZeroOrNaN y) :
    ZeroOrNaN (jsAdd x y) := by
  rcases hx with hx | hx <;> rcases hy with hy | hy <;> subst hx <;> subst hy
  · left; simp [JSNum.jsAdd]
  · right; rfl
  · right; rfl
  · right; rfl

theorem jsDivN_of_zeroOrNaN {x y : JSNum} (hx : ZeroOrNaN x) (hy : ZeroOrNaN y) :
    jsDivN x y = JSNum.nan := by
  rcases hx with hx | hx <;> rcases hy with hy | hy <;> subst hx <;> subst hy <;>
    simp [jsDivN, jsDivQ]

theorem clampN_fin_inUnit (q : ℚ) : (clampN (JSNum.fin q)).inUnit = true := by
  simp only [clampN, jsMax0, jsMin1, JSNum.inUnit, decide_eq_true_eq]
  constructor
  · exact le_min zero_le_one (le_max_left 0 q)
  · exact min_le_left 1 _

theorem clampN_inUnit_or_nan (x : JSNum) :
    (clampN x).inUnit = true ∨ clampN x = JSNum.nan := by
  cases x with
  | nan => right; rfl
  | inf => left; simp [clampN, jsMax0, jsMin1, JSNum.inUnit]
  | neginf => left; simp [clampN, jsMax0, jsMin1, JSNum.inUnit]
  | fin q => left; exact clampN_fin_inUnit q

theorem energies_of_allzero {l : List ℕ} (h : ∀ x ∈ l, x = 0) :
    ZeroOrNaN (bassEnergy l) ∧ ZeroOrNaN (lowMidEnergy l) ∧
    ZeroOrNaN (midEnergy l) ∧ ZeroOrNaN (presenceEnergy l) ∧
    ZeroOrNaN (brillianceEnergy l) :=
  ⟨bandEnergy_of_allzero h _ _ _, bandEnergy_of_allzero h _ _ _,
    bandEnergy_of_allzero h _ _ _, bandEnergy_of_allzero h _ _ _,
    bandEnergy_of_allzero h _ _ _⟩

theorem pitchRaw_of_allzero {l : List ℕ} (h : ∀ x ∈ l, x = 0) :
    pitchRaw l = JSNum.nan := by
  obtain ⟨hb, hlm, -, hp, hbr⟩ := energies_of_allzero h
  exact jsDivN_of_zeroOrNaN ((hp.jsMulFin (3/2)).jsAdd hbr) (hb.jsAdd hlm)

theorem speechRateRaw_of_allzero {l : List ℕ} (h : ∀ x ∈ l, x = 0) :
    speechRateRaw l = JSNum.nan := by
  obtain ⟨hb, hlm, hm, hp, -⟩ := energies_of_allzero h
  exact jsDivN_of_zeroOrNaN (hp.jsAdd hm) (hb.jsAdd hlm)

theorem spectralCentroidVal_of_allzero {l : List ℕ} (h : ∀ x ∈ l, x = 0) :
    spectralCentroidVal l = 0 := by
  simp [spectralCentroidVal, totalWeight_of_allzero h]

theorem spreadSqRaw_of_allzero {l : List ℕ} (h : ∀ x ∈ l, x = 0) :
    jsDivQ (spreadSum l) (totalWeight l) = JSNum.nan := by
  rw [spreadSum_of_allzero h, totalWeight_of_allzero h, jsDivQ_zero_num]
  simp

/-- **C1.** As stated, the claim is FALSE on the code: for the all-zero
snapshot of 10 bins, `pitch` (whose denominator `bassEnergy +
lowMidEnergy` is 0 with a 0 numerator) evaluates to `0/0 = NaN`, not to
0 — `calculateAudioFeatures` has no zero-guard for `pitch`,
`speechRate` or `spectralSpread`; only `spectralCentroid` is guarded. -/
theorem claim1_counterexample :
    (calculateAudioFeatures (List.replicate 10 0)).pitch = JSNum.nan ∧
    (calculateAudioFeatures (List.replicate 10 0)).pitch ≠ JSNum.fin 0 := by
  constructor
  · have h : ∀ x ∈ List.replicate 10 0, x = 0 := by decide
    show clampN (pitchRaw (List.replicate 10 0)) = JSNum.nan
    rw [pitchRaw_of_allzero h]
    rfl
  · intro hc
    have h : ∀ x ∈ List.replicate 10 0, x = 0 := by decide
    have : clampN (pitchRaw (List.replicate 10 0)) = JSNum.fin 0 := hc
    rw [pitchRaw_of_allzero h] at this
    exact absurd this (by simp [clampN, jsMin1, jsMax0])

/-- **C1 (amended).** For an empty or all-zero frequency snapshot,
`calculateAudioFeatures` completes (it is a total function, and no
division throws in JS); the explicitly guarded `spectralCentroid`
resolves to 0, but the unguarded ratios `pitch`, `speechRate` and
`spectralSpread` evaluate to `NaN` (0/0), not 0. -/
theorem claim1_amended (l : List ℕ) (h : ∀ x ∈ l, x = 0) :
    (calculateAudioFeatures l).spectralCentroid = JSNum.fin 0 ∧
    (calculateAudioFeatures l).pitch = JSNum.nan ∧
    (calculateAudioFeatures l).speechRate = JSNum.nan ∧
    (calculateAudioFeatures l).spectralSpreadSqRaw = JSNum.nan ∧
    spectralSpreadField (calculateAudioFeatures l) = JSNumR.nan := by
  refine ⟨?_, ?_, ?_, ?_, ?_⟩
  · show clampN (JSNum.fin (spectralCentroidVal l)) = JSNum.fin 0
    rw [spectralCentroidVal_of_allzero h]
    simp [clampN, jsMin1, jsMax0]
  · show clampN (pitchRaw l) = JSNum.nan
    rw [pitchRaw_of_allzero h]; rfl
  · show clampN (speechRateRaw l) = JSNum.nan
    rw [speechRateRaw_of_allzero h]; rfl
  · exact spreadSqRaw_of_allzero h
  · show JSNumR.clampR (JSNumR.jsSqrtR
      (jsDivQ (spreadSum l) (totalWeight l))) = JSNumR.nan
    rw [spreadSqRaw_of_allzero h]
    rfl

/-- Witness for C1 (amended), at the all-zero 10-bin snapshot. -/
theorem claim1_witness :
    (calculateAudioFeatures (List.replicate 10 0)).spectralCentroid = JSNum.fin 0 ∧
    (calculateAudioFeatures (List.replicate 10 0)).pitch = JSNum.nan ∧
    (calculateAudioFeatures (List.replicate 10 0)).speechRate = JSNum.nan ∧
    (calculateAudioFeatures (List.replicate 10 0)).spectralSpreadSqRaw = JSNum.nan ∧
    spectralSpreadField (calculateAudioFeatures (List.replicate 10 0)) = JSNumR.nan :=
  claim1_amended (List.replicate 10 0) (by decide)

theorem jsDivQ_of_den_ne {a b : ℚ} (hb : b ≠ 0) :
    jsDivQ a b = JSNum.fin (a / b) := by
  simp [jsDivQ, hb]

theorem bandEnergy_finNN (l : List ℕ) {w : ℚ} (hw : 0 ≤ w) {a b : ℕ}
    (hab : a < b) : FinNN (bandEnergy l w a b) := by
  have hpos : (0 : ℚ) < (((b - a : ℕ) : ℚ)) * 255 := by
    have h1 : 0 < b - a := by omega
    have h2 : (0 : ℚ) < ((b - a : ℕ) : ℚ) := by exact_mod_cast h1
    nlinarith
  refine ⟨sumWeighted w ((l.drop a).take (b - a)) / ((((b - a : ℕ) : ℚ)) * 255),
    div_nonneg (sumWeighted_nonneg hw _) (le_of_lt hpos), ?_⟩
  simp [bandEnergy, jsDivQ, ne_of_gt hpos]

theorem energies_finNN {l : List ℕ} (hn : 10 ≤ l.length) :
    FinNN (bassEnergy l) ∧ FinNN (lowMidEnergy l) ∧ FinNN (midEnergy l) ∧
    FinNN (presenceEnergy l) ∧ FinNN (brillianceEnergy l) :=
  ⟨bandEnergy_finNN l (by norm_num) (by omega),
    bandEnergy_finNN l (by norm_num) (by omega),
    bandEnergy_finNN l (by norm_num) (by omega),
    bandEnergy_finNN l (by norm_num) (by omega),
    bandEnergy_finNN l (by norm_num) (by omega)⟩

theorem bassEnergy_pos {v : ℕ} {t : List ℕ} (hv : 0 < v)
    (hn : 10 ≤ (v :: t).length) :
    ∃ q : ℚ, 0 < q ∧ bassEnergy (v :: t) = JSNum.fin q := by
  have hw : 0 < (v :: t).length / 10 := by simp at hn ⊢; omega
  obtain ⟨k, hk⟩ : ∃ k, (v :: t).length / 10 = k + 1 := ⟨_, (Nat.succ_pred_eq_of_pos hw).symm⟩
  have hden : (0 : ℚ) < ((((v :: t).length / 10 - 0 : ℕ) : ℚ)) * 255 := by
    have h2 : (0 : ℚ) < (((v :: t).length / 10 - 0 : ℕ) : ℚ) := by
      exact_mod_cast by omega
    nlinarith
  have hsum : (v : ℚ) * (6/5) ≤ sumWeighted (6/5) (((v :: t).drop 0).take ((v :: t).length / 10 - 0)) := by
    rw [List.drop_zero, Nat.sub_zero, hk, List.take_succ_cons]
    unfold sumWeighted
    rw [List.foldl_cons]
    have := le_foldl_add (fun a : ℕ => (a : ℚ) * (6/5))
      (fun a => mul_nonneg (Nat.cast_nonneg a) (by norm_num)) (t.take k)
      (0 + (v : ℚ) * (6/5))
    calc (v : ℚ) * (6/5) = 0 + (v : ℚ) * (6/5) := by ring
    _ ≤ _ := this
  have hvq : (0 : ℚ) < (v : ℚ) * (6/5) := by
    have : (0 : ℚ) < (v : ℚ) := by exact_mod_cast hv
    nlinarith
  refine ⟨sumWeighted (6/5) (((v :: t).drop 0).take ((v :: t).length / 10 - 0)) /
    (((((v :: t).length / 10 - 0 : ℕ) : ℚ)) * 255),
    div_pos (lt_of_lt_of_le hvq hsum) hden, ?_⟩
  unfold bassEnergy bandEnergy
  exact jsDivQ_of_den_ne (ne_of_gt hden)

theorem FinNN.addN {x y : JSNum} (hx : FinNN x) (hy : FinNN y) :
    FinNN (jsAdd x y) := by
  obtain ⟨a, ha, rfl⟩ := hx
  obtain ⟨b, hb, rfl⟩ := hy
  exact ⟨a + b, add_nonneg ha hb, rfl⟩

theorem FinNN.mulFin {x : JSNum} (hx : FinNN x) {c : ℚ} (hc : 0 ≤ c) :
    FinNN (jsMul x (JSNum.fin c)) := by
  obtain ⟨a, ha, rfl⟩ := hx
  exact ⟨a * c, mul_nonneg ha hc, rfl⟩

theorem clampR_inUnit_or_nan (x : JSNumR) :
    JSNumR.inUnitR (JSNumR.clampR x) ∨ JSNumR.clampR x = JSNumR.nan := by
  cases x with
  | nan => right; rfl
  | inf => left; exact ⟨zero_le_one, le_refl 1⟩
  | neginf => left; exact ⟨le_refl 0, zero_le_one⟩
  | fin r => left; exact ⟨le_min zero_le_one (le_max_left 0 r), min_le_left 1 _⟩

theorem totalWeight_pos_of_head {v : ℕ} {t : List ℕ} (hv : 0 < v) :
    0 < totalWeight (v :: t) := by
  rw [totalWeight_eq_sum, List.sum_cons]
  have h1 : (0 : ℕ) < v + t.sum := by omega
  exact_mod_cast h1

/-- **C2.** As stated, the claim is FALSE on the code: on the all-zero
10-bin snapshot the `pitch` field is `NaN` (0/0 passes through
`Math.min(1, Math.max(0, ·))` unchanged), which does not lie in [0,1]. -/
theorem claim2_counterexample :
    ((calculateAudioFeatures (List.replicate 10 0)).pitch).inUnit = false := by
  have h : ∀ x ∈ List.replicate 10 0, x = 0 := by decide
  show (clampN (pitchRaw (List.replicate 10 0))).inUnit = false
  rw [pitchRaw_of_allzero h]
  rfl

/-- **C2 (amended).** For every snapshot, each of the five normalized
fields is either `NaN` or a finite number in [0,1]; `spectralCentroid`
(the only guarded one) is always in [0,1]; and whenever every band is
nonempty (length ≥ 10) and the first bin magnitude is positive (so no
0/0 arises anywhere), all five fields lie in [0,1]. -/
theorem claim2_amended (l : List ℕ) :
    (calculateAudioFeatures l).spectralCentroid.inUnit = true ∧
    ((calculateAudioFeatures l).pitch.inUnit = true ∨
      (calculateAudioFeatures l).pitch = JSNum.nan) ∧
    ((calculateAudioFeatures l).volume.inUnit = true ∨
      (calculateAudioFeatures l).volume = JSNum.nan) ∧
    ((calculateAudioFeatures l).speechRate.inUnit = true ∨
      (calculateAudioFeatures l).speechRate = JSNum.nan) ∧
    (JSNumR.inUnitR (spectralSpreadField (calculateAudioFeatures l)) ∨
      spectralSpreadField (calculateAudioFeatures l) = JSNumR.nan) ∧
    (∀ v rest, l = v :: rest → 0 < v → 10 ≤ l.length →
      (calculateAudioFeatures l).pitch.inUnit = true ∧
      (calculateAudioFeatures l).volume.inUnit = true ∧
      (calculateAudioFeatures l).speechRate.inUnit = true ∧
      JSNumR.inUnitR (spectralSpreadField (calculateAudioFeatures l))) := by
  refine ⟨clampN_fin_inUnit _, clampN_inUnit_or_nan (pitchRaw l),
    clampN_inUnit_or_nan (volumeRaw l), clampN_inUnit_or_nan (speechRateRaw l),
    clampR_inUnit_or_nan _, ?_⟩
  rintro v rest rfl hv hn
  obtain ⟨qb, hqb, hbE⟩ := bassEnergy_pos hv hn
  obtain ⟨-, ⟨ql, hql, hlE⟩, ⟨qm, hqm, hmE⟩, ⟨qp, hqp, hpE⟩, ⟨qbr, hqbr, hbrE⟩⟩ :=
    energies_finNN hn
  have hden : (0 : ℚ) < qb + ql := add_pos_of_pos_of_nonneg hqb hql
  refine ⟨?_, ?_, ?_, ?_⟩
  · show (clampN (pitchRaw (v :: rest))).inUnit = true
    unfold pitchRaw
    rw [hbE, hlE, hpE, hbrE]
    show (clampN (jsDivQ (qp * (3/2) + qbr) (qb + ql))).inUnit = true
    rw [jsDivQ_of_den_ne (ne_of_gt hden)]
    exact clampN_fin_inUnit _
  · show (clampN (volumeRaw (v :: rest))).inUnit = true
    unfold volumeRaw
    rw [hbE, hmE, hpE]
    show (clampN (jsDivQ (qm * 2 + qp * (3/2) + qb) 3)).inUnit = true
    rw [jsDivQ_of_den_ne (by norm_num : (3 : ℚ) ≠ 0)]
    exact clampN_fin_inUnit _
  · show (clampN (speechRateRaw (v :: rest))).inUnit = true
    unfold speechRateRaw
    rw [hpE, hmE, hbE, hlE]
    show (clampN (jsDivQ (qp + qm) (qb + ql))).inUnit = true
    rw [jsDivQ_of_den_ne (ne_of_gt hden)]
    exact clampN_fin_inUnit _
  · show JSNumR.inUnitR (JSNumR.clampR (JSNumR.jsSqrtR
      (jsDivQ (spreadSum (v :: rest)) (totalWeight (v :: rest)))))
    have htw : 0 < totalWeight (v :: rest) := totalWeight_pos_of_head hv
    rw [jsDivQ_of_den_ne (ne_of_gt htw)]
    have hq : 0 ≤ spreadSum (v :: rest) / totalWeight (v :: rest) :=
      div_nonneg (spreadSum_nonneg _) (le_of_lt htw)
    simp only [JSNumR.jsSqrtR, not_lt.mpr hq, if_neg (not_lt.mpr hq)]
    exact ⟨le_min zero_le_one (le_max_left 0 _), min_le_left 1 _⟩

/-- Witness for C2 (amended): the all-ones 10-bin snapshot satisfies
the positivity hypotheses and gets all five fields in [0,1]. -/
theorem claim2_witness :
    (calculateAudioFeatures (1 :: List.replicate 9 1)).pitch.inUnit = true ∧
    (calculateAudioFeatures (1 :: List.replicate 9 1)).volume.inUnit = true ∧
    (calculateAudioFeatures (1 :: List.replicate 9 1)).speechRate.inUnit = true ∧
    JSNumR.inUnitR (spectralSpreadField (calculateAudioFeatures (1 :: List.replicate 9 1))) :=
  (claim2_amended (1 :: List.replicate 9 1)).2.2.2.2.2 1 (List.replicate 9 1) rfl
    (by norm_num) (by simp)

/-- **C7.** As stated, the claim is FALSE on the code: for the all-zero
10-bin snapshot (a sequence of non-negative magnitudes) the total
weight is 0, so the radicand is `0/0 = NaN`, `Math.sqrt(NaN) = NaN`,
and `NaN ≥ 0` does not hold. -/
theorem claim7_counterexample :
    ¬ JSNumR.nonnegR (spectralSpreadRaw (calculateAudioFeatures (List.replicate 10 0))) := by
  have h : ∀ x ∈ List.replicate 10 0, x = 0 := by decide
  show ¬ JSNumR.nonnegR (JSNumR.jsSqrtR
    (jsDivQ (spreadSum (List.replicate 10 0)) (totalWeight (List.replicate 10 0))))
  rw [spreadSqRaw_of_allzero h]
  simp [JSNumR.jsSqrtR, JSNumR.nonnegR]

/-- **C7 (amended).** Whenever the snapshot has positive total weight
(some magnitude is nonzero), the raw `spectralSpread` value
`Math.sqrt(Σ diff²·val / totalWeight)` is a finite real number ≥ 0;
on zero total weight it is `NaN` instead (see the counterexample). -/
theorem claim7_amended (l : List ℕ) (h : 0 < totalWeight l) :
    ∃ r : ℝ, 0 ≤ r ∧
      spectralSpreadRaw (calculateAudioFeatures l) = JSNumR.fin r := by
  show ∃ r : ℝ, 0 ≤ r ∧
    JSNumR.jsSqrtR (jsDivQ (spreadSum l) (totalWeight l)) = JSNumR.fin r
  rw [jsDivQ_of_den_ne (ne_of_gt h)]
  have hq : 0 ≤ spreadSum l / totalWeight l :=
    div_nonneg (spreadSum_nonneg _) (le_of_lt h)
  refine ⟨Real.sqrt (spreadSum l / totalWeight l), Real.sqrt_nonneg _, ?_⟩
  simp [JSNumR.jsSqrtR, not_lt.mpr hq]

/-- Witness for C7 (amended), at the single-bin snapshot `[1]`. -/
theorem claim7_witness :
    0 < totalWeight [1] ∧
    ∃ r : ℝ, 0 ≤ r ∧ spectralSpreadRaw (calculateAudioFeatures [1]) = JSNumR.fin r :=
  ⟨by norm_num [totalWeight], claim7_amended [1] (by norm_num [totalWeight])⟩

/-! ## Stability-filter lemmas -/

theorem le_foldl_max : ∀ (l : List ℕ) (a : ℕ), a ≤ l.foldl max a
  | [], _ => le_refl _
  | b :: l, a => le_trans (le_max_left a b) (le_foldl_max l (max a b))

theorem foldl_max_of_mem : ∀ (l : List ℕ) (a x : ℕ), x ∈ l → x ≤ l.foldl max a
  | [], _, _, hx => absurd hx (List.not_mem_nil _)
  | b :: l, a, x, hx => by
    rcases List.mem_cons.1 hx with rfl | hx
    · exact le_trans (le_max_right a x) (le_foldl_max l (max a x))
    · exact foldl_max_of_mem l (max a b) x hx

theorem pickStable_find? :
    ∀ (ps : List (String × ℕ)) (acc : String × ℕ),
      (acc :: ps).find? (fun p => p.2 = (ps.map Prod.snd).foldl max acc.2) =
        some (pickStable acc ps)
  | [], acc => by simp [pickStable]
  | p :: ps, acc => by
    simp only [List.map_cons, List.foldl_cons]
    by_cases hlt : acc.2 < p.2
    · have hmax : max acc.2 p.2 = p.2 := max_eq_right (le_of_lt hlt)
      simp only [hmax]
      have hne : acc.2 ≠ (ps.map Prod.snd).foldl max p.2 :=
        ne_of_lt (lt_of_lt_of_le hlt (le_foldl_max _ _))
      rw [List.find?_cons_of_neg _ (by simpa using hne)]
      have hpick : pickStable acc (p :: ps) = pickStable p ps := by
        simp [pickStable, hlt]
      rw [hpick]
      exact pickStable_find? ps p
    · have hle : p.2 ≤ acc.2 := not_lt.1 hlt
      have hmax : max acc.2 p.2 = acc.2 := max_eq_left hle
      simp only [hmax]
      have hpick : pickStable acc (p :: ps) = pickStable acc ps := by
        simp [pickStable, hlt]
      rw [hpick]
      have ih := pickStable_find? ps acc
      by_cases hacc : acc.2 = (ps.map Prod.snd).foldl max acc.2
      · rw [List.find?_cons_of_pos _ (by simpa using hacc)]
        rw [List.find?_cons_of_pos _ (by simpa using hacc)] at ih
        exact ih
      · have haccM : acc.2 < (ps.map Prod.snd).foldl max acc.2 :=
          lt_of_le_of_ne (le_foldl_max _ _) hacc
        have hpne : p.2 ≠ (ps.map Prod.snd).foldl max acc.2 :=
          ne_of_lt (lt_of_le_of_lt hle haccM)
        rw [List.find?_cons_of_neg _ (by simpa using hacc),
          List.find?_cons_of_neg _ (by simpa using hpne)]
        rw [List.find?_cons_of_neg _ (by simpa using hacc)] at ih
        exact ih

theorem mem_keysOf_aux :
    ∀ (l : List String) (ks : List String) (e : String),
      e ∈ l.foldl (fun ks e => if e ∈ ks then ks else ks ++ [e]) ks ↔
        e ∈ ks ∨ e ∈ l
  | [], ks, e => by simp
  | a :: l, ks, e => by
    rw [List.foldl_cons, mem_keysOf_aux l _ e]
    by_cases ha : a ∈ ks
    · simp only [if_pos ha]
      constructor
      · rintro (h | h)
        · exact Or.inl h
        · exact Or.inr (List.mem_cons_of_mem a h)
      · rintro (h | h)
        · exact Or.inl h
        · rcases List.mem_cons.1 h with rfl | h
          · exact Or.inl ha
          · exact Or.inr h
    · simp only [if_neg ha, List.mem_append, List.mem_singleton, List.mem_cons]
      tauto

theorem mem_keysOf {l : List String} {e : String} : e ∈ keysOf l ↔ e ∈ l := by
  unfold keysOf
  rw [mem_keysOf_aux l [] e]
  simp

theorem keysOf_ne_nil {l : List String} (h : l ≠ []) : keysOf l ≠ [] := by
  intro hk
  rcases l with - | ⟨a, t⟩
  · exact h rfl
  · have : a ∈ keysOf (a :: t) := mem_keysOf.2 (List.mem_cons_self a t)
    rw [hk] at this
    exact List.not_mem_nil a this

theorem countsEntries_map_snd (h : List String) :
    (countsEntries h).map Prod.snd = (keysOf h).map (fun e => h.count e) := by
  unfold countsEntries
  rw [List.map_map]
  rfl

theorem pick_counts (h : List String) (hne : h ≠ []) (dflt : String) :
    ∃ k : String,
      (keysOf h).find?
        (fun e => h.count e = ((keysOf h).map (fun e => h.count e)).foldl max 0) =
          some k ∧
      (pickStable (dflt, 0) (countsEntries h)).1 = k := by
  have base := pickStable_find? (countsEntries h) (dflt, 0)
  rw [countsEntries_map_snd h] at base
  obtain ⟨a, t, rfl⟩ : ∃ a t, h = a :: t := by
    cases h with
    | nil => exact absurd rfl hne
    | cons a t => exact ⟨a, t, rfl⟩
  have haK : a ∈ keysOf (a :: t) := mem_keysOf.2 (List.mem_cons_self a t)
  have hc : 0 < (a :: t).count a := List.count_pos_iff.2 (List.mem_cons_self a t)
  have hM1 : (a :: t).count a ≤
      ((keysOf (a :: t)).map (fun e => (a :: t).count e)).foldl max 0 :=
    foldl_max_of_mem _ 0 _ (List.mem_map_of_mem _ haK)
  have h0M : ((dflt, 0) : String × ℕ).2 ≠
      ((keysOf (a :: t)).map (fun e => (a :: t).count e)).foldl max 0 := by
    simp only []
    omega
  rw [List.find?_cons_of_neg _ (by simpa using h0M)] at base
  unfold countsEntries at base
  rw [List.find?_map] at base
  simp only [Function.comp_def] at base
  cases hfind : (keysOf (a :: t)).find?
      (fun e => (a :: t).count e =
        ((keysOf (a :: t)).map (fun e => (a :: t).count e)).foldl max 0) with
  | none =>
    rw [hfind] at base
    simp at base
  | some k =>
    rw [hfind] at base
    rw [Option.map_some'] at base
    refine ⟨k, rfl, ?_⟩
    have := Option.some.inj base
    unfold countsEntries
    rw [← this]

theorem kept_ne_nil (history : List String) (lab : String) :
    (getStableEmotion history lab).1 ≠ [] := by
  show (if 5 < (history ++ [lab]).length then (history ++ [lab]).tail
    else history ++ [lab]) ≠ []
  by_cases h : 5 < (history ++ [lab]).length
  · rw [if_pos h]
    intro hnil
    have hlen : (history ++ [lab]).tail.length = 0 := by rw [hnil]; rfl
    rw [List.length_tail] at hlen
    omega
  · rw [if_neg h]
    simp

/-- **C3.** As stated, the claim is FALSE on the code: with history
[A,B,B,A] the `Object.entries` iteration is in first-occurrence order
(A before B), both counts are 2, and the strict `count > maxCount`
update keeps the FIRST tied key, so the filter returns A — not B, the
label that reaches count 2 first in a left-to-right scan. -/
theorem claim3_counterexample :
    (observeAll [] ["A", "B", "B", "A"]).1 = ["A", "B", "B", "A"] ∧
    (observeAll [] ["A", "B", "B", "A"]).2.getLast? = some "A" ∧
    specScanWinner ["A", "B", "B", "A"] = some "B" ∧
    ("A" : String) ≠ "B" := by
  refine ⟨by decide, by decide, by decide, by decide⟩

/-- **C3 (amended).** On ties the stability filter returns the tied
label whose FIRST occurrence in the current history is earliest
(`Object.entries` insertion order), not the one that reaches the
maximum count first in a left-to-right scan: the returned label always
equals the first key, in first-occurrence order, whose occurrence count
attains the maximum. -/
theorem claim3_amended (history : List String) (lab : String) :
    (getStableEmotion history lab).2 =
      firstKeyWithMaxCount (getStableEmotion history lab).1 lab := by
  obtain ⟨k, hfind, hwin⟩ :=
    pick_counts (getStableEmotion history lab).1 (kept_ne_nil history lab) lab
  show (pickStable (lab, 0) (countsEntries (getStableEmotion history lab).1)).1 =
    firstKeyWithMaxCount (getStableEmotion history lab).1 lab
  rw [hwin]
  unfold firstKeyWithMaxCount
  rw [hfind]
  rfl

/-- **C9.** Every `getStableEmotion` call returns a label present in
the updated (post-push, post-evict) history — never a label outside the
most recent window — and the first observation after a cleared history
returns the observed label itself. -/
theorem claim9_invariant (history : List String) (lab : String) :
    (getStableEmotion history lab).2 ∈ (getStableEmotion history lab).1 ∧
    (history = [] → (getStableEmotion history lab).2 = lab) := by
  constructor
  · obtain ⟨k, hfind, hwin⟩ :=
      pick_counts (getStableEmotion history lab).1 (kept_ne_nil history lab) lab
    show (pickStable (lab, 0)
      (countsEntries (getStableEmotion history lab).1)).1 ∈
        (getStableEmotion history lab).1
    rw [hwin]
    exact mem_keysOf.1 (List.mem_of_find?_eq_some hfind)
  · rintro rfl
    simp [getStableEmotion, countsEntries, keysOf, pickStable]

/-- Witness for C9 at empty history and the label "Happy". -/
theorem claim9_witness :
    (getStableEmotion [] "Happy").2 ∈ (getStableEmotion [] "Happy").1 ∧
    (getStableEmotion [] "Happy").2 = "Happy" :=
  ⟨(claim9_invariant [] "Happy").1, (claim9_invariant [] "Happy").2 rfl⟩

/-- **C5.** Majority vote over a capacity-5 FIFO window: the observe
sequence [A,A,B,A,B] from empty ends returning A; the 6-label sequence
[A,A,A,B,B,B] evicts the oldest A, leaves history [A,A,B,B,B], and the
last call returns B; and each observe call keeps at most 5 labels,
evicting exactly the oldest when a full window is pushed. -/
theorem claim5_fifo_majority :
    (observeAll [] ["A", "A", "B", "A", "B"]).2.getLast? = some "A" ∧
    (observeAll [] ["A", "A", "A", "B", "B", "B"]).1 = ["A", "A", "B", "B", "B"] ∧
    (observeAll [] ["A", "A", "A", "B", "B", "B"]).2.getLast? = some "B" ∧
    (∀ (history : List String) (lab : String), history.length ≤ 5 →
      (getStableEmotion history lab).1.length ≤ 5 ∧
      (history.length = 5 →
        (getStableEmotion history lab).1 = (history ++ [lab]).tail)) := by
  refine ⟨by decide, by decide, by decide, ?_⟩
  intro history lab hlen
  constructor
  · show (if 5 < (history ++ [lab]).length then (history ++ [lab]).tail
      else history ++ [lab]).length ≤ 5
    by_cases h : 5 < (history ++ [lab]).length
    · rw [if_pos h, List.length_tail]
      simp only [List.length_append, List.length_singleton]
      omega
    · rw [if_neg h]
      omega
  · intro h5
    show (if 5 < (history ++ [lab]).length then (history ++ [lab]).tail
      else history ++ [lab]) = (history ++ [lab]).tail
    rw [if_pos (by simp [List.length_append, h5])]

/-- Witness for C5's capacity clause at a concrete full window. -/
theorem claim5_witness :
    (getStableEmotion ["A", "B", "C", "D", "E"] "F").1.length ≤ 5 ∧
    (getStableEmotion ["A", "B", "C", "D", "E"] "F").1 =
      (["A", "B", "C", "D", "E"] ++ ["F"]).tail := by
  have h := claim5_fifo_majority.2.2.2 ["A", "B", "C", "D", "E"] "F" (by decide)
  exact ⟨h.1, h.2 (by decide)⟩

theorem detectBody_face_count (s : CameraState) (hasExpr : Bool)
    (e : String) (conf : ℚ) :
    (detectBody s (TickResult.face hasExpr e conf)).noFaceDetectionCount = 0 := by
  simp only [detectBody]
  split
  · split <;> rfl
  · rfl

/-- **C6.** Threshold exclusivity of the sustained-absence counter:
from a streaming, detected-emotion state with absence counter 0, four
consecutive no-detection ticks never reset the current emotion or the
history; the 6th consecutive no-detection tick (counter reaches 6 > 5)
resets the emotion to "No face detected" and clears the history; and —
for EVERY streaming state, whatever its current absence-counter value —
any tick that detects at least one face resets the counter to 0. -/
theorem claim6_absence_threshold (s : CameraState)
    (hstream : s.isStreaming = true)
    (hemo : s.currentEmotion ≠ "No face detected")
    (hcnt : s.noFaceDetectionCount = 0) :
    (∀ k, k ≤ 4 →
      (noFaceTicks k s).currentEmotion = s.currentEmotion ∧
      (noFaceTicks k s).emotionHistory = s.emotionHistory) ∧
    (noFaceTicks 6 s).currentEmotion = "No face detected" ∧
    (noFaceTicks 6 s).emotionHistory = [] ∧
    (∀ (t : CameraState), t.isStreaming = true →
      ∀ (hasExpr : Bool) (emo : String) (conf : ℚ),
        (detectFacesStep t (TickResult.face hasExpr emo conf)).noFaceDetectionCount = 0) := by
  obtain ⟨st, sa, hist, emo, cnt⟩ := s
  simp only [] at hstream hemo hcnt
  subst hstream
  subst hcnt
  refine ⟨?_, ?_, ?_, ?_⟩
  · intro k hk
    interval_cases k <;>
      simp [noFaceTicks, detectFacesStep, detectBody, hemo]
  · simp [noFaceTicks, detectFacesStep, detectBody, hemo]
  · simp [noFaceTicks, detectFacesStep, detectBody, hemo]
  · intro t ht hasExpr e conf
    unfold detectFacesStep
    rw [if_pos ht]
    exact detectBody_face_count t hasExpr e conf

/-- Witness for C6 at a concrete streaming state showing "Happy"; the
counter-reset clause is exercised at a state whose absence counter is
already 3, so the reset 3 → 0 is not vacuous. -/
theorem claim6_witness :
    ((noFaceTicks 4 ⟨true, true, ["Happy"], "Happy", 0⟩).currentEmotion = "Happy" ∧
      (noFaceTicks 4 ⟨true, true, ["Happy"], "Happy", 0⟩).emotionHistory = ["Happy"]) ∧
    (noFaceTicks 6 ⟨true, true, ["Happy"], "Happy", 0⟩).currentEmotion = "No face detected" ∧
    (noFaceTicks 6 ⟨true, true, ["Happy"], "Happy", 0⟩).emotionHistory = [] ∧
    (detectFacesStep ⟨true, true, ["Happy"], "Happy", 3⟩
      (TickResult.face true "Sad" (1/2))).noFaceDetectionCount = 0 := by
  have h := claim6_absence_threshold ⟨true, true, ["Happy"], "Happy", 0⟩
    rfl (by decide) rfl
  exact ⟨h.1 4 (by decide), h.2.1, h.2.2.1,
    h.2.2.2 ⟨true, true, ["Happy"], "Happy", 3⟩ rfl true "Sad" (1/2)⟩

/-- **C4.** As stated, the claim is FALSE on the code: the stop handler
stops the stream and clears `isStreaming` but never touches
`emotionHistory` or `currentEmotion` — the smoothing state of the
stopped session is retained, not cleared (it is only cleared by the
sustained no-face path of `detectFaces`). -/
theorem claim4_counterexample :
    stopClick ⟨true, true, ["Happy"], "Happy", 0⟩ =
      (⟨false, false, ["Happy"], "Happy", 0⟩ : CameraState) ∧
    (["Happy"] : List String) ≠ [] := by
  exact ⟨rfl, by decide⟩

/-- **C4 (amended).** After the stop handler runs on a streaming
session, the capture resource is released and `isStreaming` is false —
so every subsequent `detectFaces` invocation is a no-op, halting the
periodic detection — but the in-memory smoothing state is NOT reset:
the emotion history and the current stable emotion keep their values
from the stopped session. -/
theorem claim4_amended (s : CameraState) (hs : s.isStreaming = true) :
    (stopClick s).isStreaming = false ∧
    (stopClick s).streamActive = false ∧
    (stopClick s).emotionHistory = s.emotionHistory ∧
    (stopClick s).currentEmotion = s.currentEmotion ∧
    (∀ r, detectFacesStep (stopClick s) r = stopClick s) := by
  have hstop : stopClick s = { s with streamActive := false, isStreaming := false } := by
    unfold stopClick
    rw [if_pos hs]
  rw [hstop]
  refine ⟨rfl, rfl, rfl, rfl, ?_⟩
  intro r
  unfold detectFacesStep
  simp

/-- Witness for C4 (amended) at a concrete streaming state. -/
theorem claim4_witness :
    (stopClick ⟨true, true, ["Sad"], "Sad", 2⟩).isStreaming = false ∧
    (stopClick ⟨true, true, ["Sad"], "Sad", 2⟩).streamActive = false ∧
    (stopClick ⟨true, true, ["Sad"], "Sad", 2⟩).emotionHistory = ["Sad"] ∧
    (stopClick ⟨true, true, ["Sad"], "Sad", 2⟩).currentEmotion = "Sad" := by
  have h := claim4_amended ⟨true, true, ["Sad"], "Sad", 2⟩ rfl
  exact ⟨h.1, h.2.1, h.2.2.1, h.2.2.2.1⟩

theorem saveTrace_gap (s : SaveState) :
    ∀ events : List (String × ℚ × ℤ),
      List.Chain' (fun t1 t2 => emotionSaveInterval < t2 - t1)
        (saveTrace s events) ∧
      (∀ t, (saveTrace s events).head? = some t →
        emotionSaveInterval < t - s.lastEmotionSaveTime)
  | [] => ⟨List.chain'_nil, by intro t ht; simp [saveTrace] at ht⟩
  | (e, c, t) :: rest => by
    by_cases hpost : e ≠ "No face detected" ∧
      emotionSaveInterval < t - s.lastEmotionSaveTime
    · have hsave : saveEmotion s e c t = ({ lastEmotionSaveTime := t }, true) := by
        unfold saveEmotion
        rw [if_pos hpost]
      have htr : saveTrace s ((e, c, t) :: rest) =
          t :: saveTrace { lastEmotionSaveTime := t } rest := by
        simp only [saveTrace, hsave]
        simp
      obtain ⟨ih1, ih2⟩ := saveTrace_gap { lastEmotionSaveTime := t } rest
      rw [htr]
      constructor
      · rw [List.chain'_cons']
        exact ⟨fun y hy => ih2 y hy, ih1⟩
      · intro t' ht'
        have h2 : t = t' := by simpa using ht'
        rw [← h2]
        exact hpost.2
    · have hsave : saveEmotion s e c t = (s, false) := by
        unfold saveEmotion
        rw [if_neg hpost]
      have htr : saveTrace s ((e, c, t) :: rest) = saveTrace s rest := by
        simp only [saveTrace, hsave]
        simp
      rw [htr]
      exact saveTrace_gap s rest

/-- **C8.** Rate limiting of face-pipeline persistence: in any sequence
of `saveEmotion` calls (any labels, confidences and call times,
starting from the initial `lastEmotionSaveTime = 0`), two successive
issued POSTs are never separated by less than `emotionSaveInterval` =
2000 ms (the code in fact guarantees a strictly greater gap). -/
theorem claim8_rate_limited (events : List (String × ℚ × ℤ)) :
    List.Chain' (fun t1 t2 => emotionSaveInterval ≤ t2 - t1)
      (saveTrace { lastEmotionSaveTime := 0 } events) :=
  List.Chain'.imp (fun _ _ h => le_of_lt h)
    (saveTrace_gap { lastEmotionSaveTime := 0 } events).1

/-- **C10.** `saveEmotion` never posts the "No face detected" label:
for every rate-limiter state, confidence and call time, the guard
filters it out before the POST. -/
theorem claim10_never_posts_noface (s : SaveState) (conf : ℚ) (now : ℤ) :
    (saveEmotion s "No face detected" conf now).2 = false := by
  have hneg : ¬(("No face detected" : String) ≠ "No face detected" ∧
      emotionSaveInterval < now - s.lastEmotionSaveTime) := by
    rintro ⟨h, -⟩
    exact h rfl
  unfold saveEmotion
  rw [if_neg hneg]
